import Mathlib

/-!
Verification of the Yard Goats Tracker core pipeline.

The repository is a small notification system over a shared SQLite store
(schema in data/schema.sql) with a Python scraper/alert engine and a
Next.js dashboard.  This file gives a shallow embedding of the store, the
ingestion operations, the lead-time selector, the delivery dispatcher and
the dashboard read layer, and proves the spec-level claims about them.

Timestamps and calendar dates are modelled as natural numbers; SQL rows
become Lean structures and tables become lists of rows.
-/

namespace YardGoats

/-- A row of the games table (data/schema.sql). -/
structure GameRow where
  id : Nat
  game_date : Nat
  day_of_week : String
  start_time : Option String
  opponent : String
  is_home : Bool
  ticket_url : Option String
  updated_at : Nat
  deriving DecidableEq

/-- A row of the promotions table (data/schema.sql). -/
structure PromoRow where
  id : Nat
  game_id : Nat
  promo_type : String
  description : String
  updated_at : Nat
  deriving DecidableEq

/-- A row of the recipients table (data/schema.sql). -/
structure RecipientRow where
  id : Nat
  name : String
  phone : Option String
  email : Option String
  active : Bool
  deriving DecidableEq

/-- The channel enum of the alerts_sent table: CHECK(channel IN ('sms','email')). -/
inductive Channel where
  | sms
  | email
  deriving DecidableEq

/-- A row of the alerts_sent audit table (data/schema.sql). -/
structure AlertRow where
  id : Nat
  game_id : Nat
  recipient_id : Nat
  channel : Channel
  sent_at : Nat
  status : String
  deriving DecidableEq

/-- The SQLite store: the four tables plus the AUTOINCREMENT counters. -/
structure Store where
  games : List GameRow
  promotions : List PromoRow
  recipients : List RecipientRow
  alerts_sent : List AlertRow
  next_game_id : Nat
  next_promo_id : Nat
  next_recipient_id : Nat
  next_alert_id : Nat
  deriving DecidableEq

/-- The closed promo_type enum of the promotions CHECK constraint. -/
def promoTypeEnum : List String :=
  ["giveaway", "fireworks", "discount", "theme", "heritage", "special"]

/-- Schema invariant: games.game_date is UNIQUE. -/
def datesNodup (s : Store) : Prop :=
  (s.games.map (fun g => g.game_date)).Nodup

/-- Schema invariant: every promo_type is in the closed enum. -/
def promoTypesValid (s : Store) : Prop :=
  ∀ p ∈ s.promotions, p.promo_type ∈ promoTypeEnum

/-- Schema invariant: CHECK (phone IS NOT NULL OR email IS NOT NULL). -/
def recipientsValid (s : Store) : Prop :=
  ∀ r ∈ s.recipients, r.phone ≠ none ∨ r.email ≠ none

/-- A delivery triple (game id, recipient id, channel). -/
abbrev Triple := Nat × Nat × Channel

/-- Whether an alerts_sent row is the record of a given triple. -/
def matchesTriple (a : AlertRow) (t : Triple) : Bool :=
  a.game_id == t.1 && a.recipient_id == t.2.1 && a.channel == t.2.2

/-- All alerts_sent rows of a given triple. -/
def tripleRows (s : Store) (t : Triple) : List AlertRow :=
  s.alerts_sent.filter (fun a => matchesTriple a t)

/-- Schema invariant: UNIQUE(game_id, recipient_id, channel) on alerts_sent. -/
def tripleUnique (s : Store) : Prop :=
  ∀ t : Triple, (tripleRows s t).length ≤ 1

/-- Referential integrity: every promotion points at an existing game. -/
def orphanFree (s : Store) : Prop :=
  ∀ p ∈ s.promotions, ∃ g ∈ s.games, g.id = p.game_id

/-! ### Dashboard read layer (dashboard src/lib/db.ts) -/

/-- A game joined with its promotions, as returned by getUpcomingGames. -/
structure GameWithPromos where
  game : GameRow
  promotions : List PromoRow
  deriving DecidableEq

/-- The ORDER BY game_date ASC comparison. -/
def byDate (a b : GameRow) : Prop :=
  a.game_date ≤ b.game_date

instance : DecidableRel byDate :=
  fun a b => Nat.decLe a.game_date b.game_date

instance : IsTotal GameRow byDate :=
  ⟨fun a b => Nat.le_total a.game_date b.game_date⟩

instance : IsTrans GameRow byDate :=
  ⟨fun _ _ _ h h' => Nat.le_trans h h'⟩

/-- getUpcomingGames from src/lib/db.ts: SELECT * FROM games WHERE is_home = 1
ORDER BY game_date ASC, then for each game SELECT * FROM promotions WHERE
game_id = that game's id. -/
def getUpcomingGames (s : Store) : List GameWithPromos :=
  ((s.games.filter (fun g => g.is_home)).insertionSort byDate).map
    (fun g => ⟨g, s.promotions.filter (fun p => p.game_id == g.id)⟩)

/-- getSyncStatus from src/lib/db.ts: SELECT MAX(updated_at) FROM games,
returning null when the table is empty. -/
def getSyncStatus (s : Store) : Option Nat :=
  (s.games.map (fun g => g.updated_at)).max?

/-! ### Promo badge display layer (dashboard PromoBadge component) -/

/-- Lower-casing of a string, character by character (the toLowerCase call
of the dashboard components, for the basic latin range). -/
def lower (s : String) : String :=
  ⟨s.toList.map Char.toLower⟩

/-- Substring occurrence on character lists (the JavaScript includes test). -/
def occursIn (needle : List Char) : List Char → Bool
  | [] => needle.isEmpty
  | c :: rest => needle.isPrefixOf (c :: rest) || occursIn needle rest

/-- The case-insensitive includes test used by the dashboard components. -/
def strIncludes (hay needle : String) : Bool :=
  occursIn needle.toList hay.toList

/-- The rendered state of the PromoBadge component. -/
structure BadgeView where
  bgColor : String
  textColor : String
  icon : String
  animation : String
  label : String
  deriving DecidableEq

/-- PromoBadge from the dashboard: jersey promotions (matched
case-insensitively on the description) are displayed as a gold
giveaway with the label Jersey Giveaway; the stored data is untouched. -/
def PromoBadge (type description : String) : BadgeView :=
  let isJersey := strIncludes (lower description) "jersey"
  let isFireworks :=
    strIncludes (lower type) "fireworks" || strIncludes (lower description) "fireworks"
  let label := if isJersey then "Jersey Giveaway" else description
  if isJersey then
    ⟨"bg-[#FFD700]", "text-black", "🎁",
      "animate-pulse shadow-[0_0_15px_rgba(255,215,0,0.5)]", label⟩
  else if isFireworks then
    ⟨"bg-[#00FFCC]", "text-black", "🎆", "", label⟩
  else if lower type == "giveaway" then
    ⟨"bg-blue-50", "text-blue-700", "🎁", "", label⟩
  else
    ⟨"bg-slate-100", "text-slate-700", "⚾", "", label⟩

/-! ### Signup endpoint (src/app/api/signup/route.ts) -/

/-- JavaScript falsiness of an optional string field: absent or empty. -/
def falsyStr : Option String → Bool
  | none => true
  | some s => s == ""

/-- The response of the signup endpoint, together with whether the
downstream registry update (the workflow dispatch request) was sent. -/
structure SignupResponse where
  status : Nat
  success : Bool
  dispatched : Bool
  deriving DecidableEq

/-- POST from src/app/api/signup/route.ts: validate name and contact
fields, then - only when valid and configured - send the workflow
dispatch request and report its outcome. -/
def POST (name phone email : Option String) (configOk : Bool) (fetchStatus : Nat)
    : SignupResponse :=
  if falsyStr name || (falsyStr phone && falsyStr email) then
    ⟨400, false, false⟩
  else if !configOk then
    ⟨500, false, false⟩
  else if (200 ≤ fetchStatus ∧ fetchStatus < 300) ∨ fetchStatus = 204 then
    ⟨200, true, true⟩
  else
    ⟨fetchStatus, false, true⟩

/-! ### Schedule ingestion (scraper/db.py upsert_game; modelled from the spec) -/

/-- One normalized schedule entry handed to the upsert. -/
structure GameInput where
  game_date : Nat
  day_of_week : String
  start_time : Option String
  opponent : String
  is_home : Bool
  ticket_url : Option String
  deriving DecidableEq

/-- Overwrite the mutable fields of a game row from a schedule entry and
bump its last-modified timestamp. -/
def applyInput (row : GameRow) (g : GameInput) (now : Nat) : GameRow :=
  { row with
    day_of_week := g.day_of_week
    start_time := g.start_time
    opponent := g.opponent
    is_home := g.is_home
    ticket_url := g.ticket_url
    updated_at := now }

/-- Overwrite every game row carrying the entry date. -/
def writeFields (gs : List GameRow) (g : GameInput) (now : Nat) : List GameRow :=
  gs.map (fun row => if row.game_date = g.game_date then applyInput row g now else row)

/-- Whether some game row carries the given calendar date. -/
def hasDate (gs : List GameRow) (d : Nat) : Bool :=
  gs.any (fun row => row.game_date == d)

/-- A freshly inserted game row. -/
def newGameRow (i : Nat) (g : GameInput) (now : Nat) : GameRow :=
  ⟨i, g.game_date, g.day_of_week, g.start_time, g.opponent, g.is_home, g.ticket_url, now⟩

/-- Modelled from the spec: upsert_game of scraper/db.py (absent from the
sources; only its contract is documented).  Inserts or updates a game
record keyed by game_date - if a Game with that date exists, overwrite all
mutable fields and bump last-modified; else insert. -/
def upsert_game (s : Store) (g : GameInput) (now : Nat) : Store :=
  if hasDate s.games g.game_date then
    { s with games := writeFields s.games g now }
  else
    { s with
      games := s.games ++ [newGameRow s.next_game_id g now]
      next_game_id := s.next_game_id + 1 }

/-- Modelled from the spec: one schedule-ingestion run, upserting each
fetched entry in order at the run timestamp. -/
def ingest (s : Store) (es : List GameInput) (now : Nat) : Store :=
  es.foldl (fun acc e => upsert_game acc e now) s

/-! ### Promotion ingestion (scraper/db.py upsert_promotions; modelled from the spec) -/

/-- The freshly inserted promotion rows for a game, ids drawn
sequentially from the AUTOINCREMENT counter. -/
def newPromoRows (gid nextId now : Nat) : List (String × String) → List PromoRow
  | [] => []
  | (t, d) :: rest => ⟨nextId, gid, t, d, now⟩ :: newPromoRows gid (nextId + 1) now rest

/-- Modelled from the spec: upsert_promotions of scraper/db.py (absent
from the sources).  Replaces all promotions for a specific game id:
delete every existing Promotion row of that game, then insert the freshly
parsed (type, description) pairs. -/
def upsert_promotions (s : Store) (gid : Nat) (promos : List (String × String)) (now : Nat)
    : Store :=
  { s with
    promotions :=
      s.promotions.filter (fun p => p.game_id ≠ gid) ++ newPromoRows gid s.next_promo_id now promos
    next_promo_id := s.next_promo_id + promos.length }

/-- Deleting a game per the schema: promotions reference games with
ON DELETE CASCADE, so the promotions of the deleted game go with it. -/
def delete_game (s : Store) (gid : Nat) : Store :=
  { s with
    games := s.games.filter (fun g => g.id ≠ gid)
    promotions := s.promotions.filter (fun p => p.game_id ≠ gid) }

/-! ### Lead-time selector and freshness guard (alerts/engine.py; modelled from the spec) -/

/-- The qualifying day-of-week names. -/
def weekendNames : List String := ["Friday", "Saturday", "Sunday"]

/-- Modelled from the spec: get_qualifying_games of alerts/engine.py
(absent from the sources).  Selects the home games on the target date
whose day-of-week is Friday, Saturday or Sunday, ordered by date. -/
def get_qualifying_games (s : Store) (target : Nat) : List GameRow :=
  (s.games.filter
    (fun g =>
      g.game_date == target && g.is_home && weekendNames.contains g.day_of_week)).insertionSort
    byDate

/-- Modelled from the spec: check_data_freshness of alerts/engine.py
(absent from the sources).  Validates that the games table has been
updated recently: the last-sync timestamp (max updated_at) must be within
the configured threshold of the current time. -/
def check_data_freshness (s : Store) (now threshold : Nat) : Bool :=
  match getSyncStatus s with
  | none => false
  | some t => now - t ≤ threshold

/-! ### Delivery dispatcher (alerts/main.py; modelled from the spec) -/

/-- The channels a recipient has a destination for: phone gives sms,
email gives email. -/
def channelsOf (r : RecipientRow) : List Channel :=
  (match r.phone with
   | some _ => [Channel.sms]
   | none => []) ++
  (match r.email with
   | some _ => [Channel.email]
   | none => [])

/-- Whether the audit store already holds any record for a triple. -/
def hasRecord (s : Store) (t : Triple) : Bool :=
  s.alerts_sent.any (fun a => matchesTriple a t)

/-- Whether the audit store holds a record with status delivered for a triple. -/
def hasDelivered (s : Store) (t : Triple) : Bool :=
  s.alerts_sent.any (fun a => matchesTriple a t && a.status == "delivered")

/-- A channel provider outcome oracle: true means the send succeeded. -/
abbrev Provider := Triple → Bool

/-- Modelled from the spec: write or update the DeliveryRecord of a triple
after a provider invocation - status delivered on success, failed on
failure, never raising. -/
def recordOutcome (s : Store) (t : Triple) (ok : Bool) (now : Nat) : Store :=
  let st := if ok then "delivered" else "failed"
  if hasRecord s t then
    { s with
      alerts_sent := s.alerts_sent.map
        (fun a => if matchesTriple a t then { a with status := st, sent_at := now } else a) }
  else
    { s with
      alerts_sent := s.alerts_sent ++ [⟨s.next_alert_id, t.1, t.2.1, t.2.2, now, st⟩]
      next_alert_id := s.next_alert_id + 1 }

/-- Modelled from the spec: process one delivery triple - skip as a no-op
when a delivered record exists, otherwise invoke the provider and record
the outcome.  The second component accumulates the provider invocations. -/
def dispatchTriple (p : Provider) (now : Nat) (acc : Store × List Triple) (t : Triple)
    : Store × List Triple :=
  if hasDelivered acc.1 t then acc
  else (recordOutcome acc.1 t (p t) now, acc.2 ++ [t])

/-- Modelled from the spec: the delivery triples of one alert run - each
qualifying game crossed with each active recipient and each channel the
recipient has a destination for. -/
def triplesFor (s : Store) (target : Nat) : List Triple :=
  (get_qualifying_games s target).flatMap (fun g =>
    (s.recipients.filter (fun r => r.active)).flatMap (fun r =>
      (channelsOf r).map (fun c => (g.id, r.id, c))))

/-- The outcome of one alert run: the final store and the provider
invocations made. -/
structure RunResult where
  store : Store
  calls : List Triple
  deriving DecidableEq

instance {ε α : Type} [DecidableEq ε] [DecidableEq α] : DecidableEq (Except ε α) :=
  fun a b =>
    match a, b with
    | Except.ok x, Except.ok y => decidable_of_iff (x = y) (by simp)
    | Except.error x, Except.error y => decidable_of_iff (x = y) (by simp)
    | Except.ok _, Except.error _ => isFalse (by simp)
    | Except.error _, Except.ok _ => isFalse (by simp)

/-- Modelled from the spec: one run of alerts/main.py (absent from the
sources).  Aborts with a data-freshness failure when the store is stale,
otherwise dispatches every triple of the lead-time target date. -/
def run_alerts (s : Store) (today leadTime now threshold : Nat) (p : Provider)
    : Except String RunResult :=
  if check_data_freshness s now threshold then
    let r := (triplesFor s (today + leadTime)).foldl (dispatchTriple p now) (s, [])
    Except.ok ⟨r.1, r.2⟩
  else
    Except.error "data-freshness failure"

/-! ### Recipient registry (admin/manage.py add; modelled from the spec) -/

/-- Modelled from the spec: the add command of admin/manage.py (absent
from the sources) inserting a recipient, subject to the schema CHECK that
at least one of phone and email is present - a violating insert is
rejected by the store, never coerced or dropped silently. -/
def add_recipient (s : Store) (name : String) (phone email : Option String)
    : Except String Store :=
  if phone = none ∧ email = none then
    Except.error "CHECK constraint failed: recipients"
  else
    Except.ok
      { s with
        recipients := s.recipients ++ [⟨s.next_recipient_id, name, phone, email, true⟩]
        next_recipient_id := s.next_recipient_id + 1 }

/-- Every game row carrying the entry date already holds exactly the
entry fields and the run timestamp. -/
def rowsMatch (gs : List GameRow) (g : GameInput) (now : Nat) : Prop :=
  ∀ row ∈ gs, row.game_date = g.game_date → applyInput row g now = row

/-! ### Concrete fixtures used by the witness theorems -/

/-- A Friday home game used by the witnesses. -/
def wGame : GameRow :=
  ⟨1, 100, "Friday", some "7:05 PM", "Sea Dogs", true, some "https://tickets", 50⟩

/-- A jersey promotion attached to the fixture game. -/
def wPromo : PromoRow :=
  ⟨1, 1, "theme", "Los Chivos Jersey Night", 50⟩

/-- Recipient A, reachable by phone only. -/
def wRecipA : RecipientRow :=
  ⟨1, "A", some "+18605550001", none, true⟩

/-- Recipient B, reachable by email only. -/
def wRecipB : RecipientRow :=
  ⟨2, "B", none, some "b@example.com", true⟩

/-- The fixture store: one qualifying game, one promotion, two active
recipients, empty audit log. -/
def wStore : Store :=
  ⟨[wGame], [wPromo], [wRecipA, wRecipB], [], 2, 2, 3, 1⟩

/-- The fixture store after a successful sms delivery to recipient A. -/
def wStoreDelivered : Store :=
  { wStore with
    alerts_sent := [⟨1, 1, 1, Channel.sms, 40, "delivered"⟩]
    next_alert_id := 2 }

/-- A provider that fails for recipient A and succeeds for recipient B. -/
def wProvider : Provider :=
  fun t => t.2.1 == 2

/-- A schedule entry matching the fixture game. -/
def wEntry : GameInput :=
  ⟨100, "Friday", some "7:05 PM", "Sea Dogs", true, some "https://tickets"⟩

/-- A second schedule entry on the following day. -/
def wEntry2 : GameInput :=
  ⟨101, "Saturday", none, "Rumble Ponies", true, none⟩

/-- Recipient B with a phone number, for the same-channel failure fixture. -/
def wRecipBPhone : RecipientRow :=
  ⟨2, "B", some "+18605550002", none, true⟩

/-- Fixture store where both recipients are reachable by sms. -/
def wStoreC5 : Store :=
  ⟨[wGame], [wPromo], [wRecipA, wRecipBPhone], [], 2, 2, 3, 1⟩

/-- The expected outcome of re-running the dispatcher on wStoreDelivered. -/
def wC1Res : RunResult :=
  ⟨{ wStoreDelivered with
      alerts_sent :=
        [⟨1, 1, 1, Channel.sms, 40, "delivered"⟩, ⟨2, 1, 2, Channel.email, 60, "delivered"⟩]
      next_alert_id := 3 },
    [(1, 2, Channel.email)]⟩

/-- Fixture store whose only game falls on a Tuesday. -/
def wStoreTue : Store :=
  ⟨[⟨1, 100, "Tuesday", none, "Sea Dogs", true, none, 50⟩], [], [wRecipA], [], 2, 1, 2, 1⟩

/-- The fixture store after adding a phone-only recipient. -/
def wStoreAdded : Store :=
  { wStore with
    recipients := wStore.recipients ++ [⟨3, "X", some "+18605550003", none, true⟩]
    next_recipient_id := 4 }

/-! ## Lemmas about schedule ingestion -/

theorem ingest_nil (s : Store) (now : Nat) : ingest s [] now = s :=
  rfl

theorem ingest_cons (s : Store) (e : GameInput) (rest : List GameInput) (now : Nat) :
    ingest s (e :: rest) now = ingest (upsert_game s e now) rest now :=
  rfl

theorem game_date_applyInput (row : GameRow) (g : GameInput) (now : Nat) :
    (applyInput row g now).game_date = row.game_date :=
  rfl

theorem applyInput_applyInput (row : GameRow) (g e : GameInput) (n m : Nat) :
    applyInput (applyInput row g n) e m = applyInput row e m :=
  rfl

theorem writeFields_map_date (gs : List GameRow) (g : GameInput) (now : Nat) :
    (writeFields gs g now).map (fun r => r.game_date) = gs.map (fun r => r.game_date) := by
  unfold writeFields
  rw [List.map_map]
  apply List.map_congr_left
  intro a _
  by_cases h : a.game_date = g.game_date <;> simp [Function.comp, h, applyInput]

theorem hasDate_writeFields (gs : List GameRow) (g : GameInput) (now d : Nat) :
    hasDate (writeFields gs g now) d = hasDate gs d := by
  unfold hasDate writeFields
  rw [List.any_map]
  have hp : ((fun row : GameRow => row.game_date == d) ∘
      fun row => if row.game_date = g.game_date then applyInput row g now else row) =
      fun row : GameRow => row.game_date == d := by
    funext row
    by_cases h : row.game_date = g.game_date <;>
      simp [Function.comp, h, game_date_applyInput]
  rw [hp]

theorem hasDate_append (gs : List GameRow) (r : GameRow) (d : Nat) :
    hasDate (gs ++ [r]) d = (hasDate gs d || (r.game_date == d)) := by
  simp [hasDate, List.any_append]

theorem hasDate_false_iff (gs : List GameRow) (d : Nat) :
    hasDate gs d = false ↔ ∀ row ∈ gs, row.game_date ≠ d := by
  simp [hasDate, List.any_eq_false]

theorem writeFields_absorb {g e : GameInput} (h : e.game_date = g.game_date)
    (gs : List GameRow) (n m : Nat) :
    writeFields (writeFields gs g n) e m = writeFields gs e m := by
  unfold writeFields
  rw [List.map_map]
  apply List.map_congr_left
  intro a _
  by_cases hd : a.game_date = g.game_date
  · simp [Function.comp, hd, h, game_date_applyInput, applyInput_applyInput]
  · simp [Function.comp, hd, h]

theorem writeFields_comm {g e : GameInput} (h : e.game_date ≠ g.game_date)
    (gs : List GameRow) (n m : Nat) :
    writeFields (writeFields gs g n) e m = writeFields (writeFields gs e m) g n := by
  unfold writeFields
  rw [List.map_map, List.map_map]
  apply List.map_congr_left
  intro a _
  have hge : g.game_date ≠ e.game_date := fun x => h x.symm
  by_cases hg : a.game_date = g.game_date <;> by_cases he : a.game_date = e.game_date
  · exact absurd (he.symm.trans hg) h
  · simp [Function.comp, hg, hge, game_date_applyInput]
  · simp [Function.comp, he, h, game_date_applyInput]
  · simp [Function.comp, hg, he]

theorem writeFields_append {g : GameInput} {r : GameRow} (h : r.game_date ≠ g.game_date)
    (gs : List GameRow) (now : Nat) :
    writeFields (gs ++ [r]) g now = writeFields gs g now ++ [r] := by
  simp [writeFields, List.map_append, h]

theorem writeFields_of_match {gs : List GameRow} {g : GameInput} {now : Nat}
    (h : rowsMatch gs g now) : writeFields gs g now = gs := by
  unfold writeFields
  have hp : ∀ a ∈ gs,
      (if a.game_date = g.game_date then applyInput a g now else a) = id a := by
    intro a ha
    by_cases hd : a.game_date = g.game_date
    · simpa [hd] using h a ha hd
    · simp [hd]
  rw [List.map_congr_left hp, List.map_id]

theorem upsert_game_of_match {s : Store} {g : GameInput} {now : Nat}
    (hd : hasDate s.games g.game_date = true) (h : rowsMatch s.games g now) :
    upsert_game s g now = s := by
  unfold upsert_game
  simp [hd, writeFields_of_match h]

theorem rowsMatch_upsert (s : Store) (g : GameInput) (now : Nat) :
    rowsMatch (upsert_game s g now).games g now := by
  unfold upsert_game
  by_cases hd : hasDate s.games g.game_date = true
  · simp only [hd, if_true]
    intro row hrow hdate
    rcases List.mem_map.mp hrow with ⟨a, _, rfl⟩
    by_cases h2 : a.game_date = g.game_date
    · simp [h2, applyInput_applyInput]
    · rw [if_neg h2] at hdate
      exact absurd hdate h2
  · have hd' : hasDate s.games g.game_date = false := by simpa using hd
    simp only [hd, if_false]
    intro row hrow hdate
    rcases List.mem_append.mp hrow with h1 | h2
    · exact absurd hdate ((hasDate_false_iff _ _).mp hd' row h1)
    · have : row = newGameRow s.next_game_id g now := by simpa using h2
      subst this
      rfl

theorem hasDate_upsert_self (s : Store) (g : GameInput) (now : Nat) :
    hasDate (upsert_game s g now).games g.game_date = true := by
  unfold upsert_game
  by_cases hd : hasDate s.games g.game_date = true
  · simp [hd, hasDate_writeFields]
  · simp [hd, hasDate_append, newGameRow]

theorem hasDate_mono_upsert {s : Store} {d : Nat} (e : GameInput) (now : Nat)
    (h : hasDate s.games d = true) : hasDate (upsert_game s e now).games d = true := by
  unfold upsert_game
  by_cases hd : hasDate s.games e.game_date = true
  · simpa [hd, hasDate_writeFields] using h
  · simp [hd, hasDate_append, h]

theorem hasDate_mono_ingest (es : List GameInput) :
    ∀ (s : Store) (now d : Nat), hasDate s.games d = true →
      hasDate (ingest s es now).games d = true := by
  induction es with
  | nil => intro s now d h; exact h
  | cons e rest ih =>
    intro s now d h
    rw [ingest_cons]
    exact ih _ now d (hasDate_mono_upsert e now h)

theorem rowsMatch_step {s : Store} {e g : GameInput} {now : Nat}
    (hne : e.game_date ≠ g.game_date) (h : rowsMatch s.games g now) :
    rowsMatch (upsert_game s e now).games g now := by
  unfold upsert_game
  by_cases hd : hasDate s.games e.game_date = true
  · simp only [hd, if_true]
    intro row hrow hdate
    rcases List.mem_map.mp hrow with ⟨a, ha, rfl⟩
    by_cases h2 : a.game_date = e.game_date
    · simp only [h2, if_true, ite_true, game_date_applyInput] at hdate
      exact absurd (h2 ▸ hdate) hne
    · simp only [h2, ite_false] at hdate ⊢
      exact h a ha hdate
  · simp only [hd, if_false]
    intro row hrow hdate
    rcases List.mem_append.mp hrow with h1 | h2
    · exact h row h1 hdate
    · have : row = newGameRow s.next_game_id e now := by simpa using h2
      subst this
      exact absurd hdate hne

theorem rowsMatch_ingest (es : List GameInput) :
    ∀ (s : Store) (g : GameInput) (now : Nat),
      (∀ e ∈ es, e.game_date ≠ g.game_date) → rowsMatch s.games g now →
      rowsMatch (ingest s es now).games g now := by
  induction es with
  | nil => intro s g now _ h; exact h
  | cons e rest ih =>
    intro s g now hne h
    rw [ingest_cons]
    exact ih _ g now (fun x hx => hne x (List.mem_cons_of_mem e hx))
      (rowsMatch_step (hne e (List.mem_cons_self e rest)) h)

theorem upsert_game_overwrite {s : Store} {g : GameInput} {now : Nat}
    (hd : hasDate s.games g.game_date = true) :
    upsert_game s g now = { s with games := writeFields s.games g now } := by
  unfold upsert_game
  simp [hd]

theorem upsert_game_insert {s : Store} {g : GameInput} {now : Nat}
    (hd : hasDate s.games g.game_date = false) :
    upsert_game s g now =
      { s with
        games := s.games ++ [newGameRow s.next_game_id g now]
        next_game_id := s.next_game_id + 1 } := by
  unfold upsert_game
  simp [hd]

theorem ingest_writeFields_eq (es : List GameInput) :
    ∀ (s : Store) (g : GameInput) (now : Nat),
      hasDate s.games g.game_date = true →
      (∃ e ∈ es, e.game_date = g.game_date) →
      ingest { s with games := writeFields s.games g now } es now = ingest s es now := by
  induction es with
  | nil =>
    intro s g now _ hex
    simp at hex
  | cons e rest ih =>
    intro s g now hd hex
    rw [ingest_cons, ingest_cons]
    by_cases he : e.game_date = g.game_date
    · have hd1 : hasDate (writeFields s.games g now) e.game_date = true := by
        rw [hasDate_writeFields, he]
        exact hd
      have hd2 : hasDate s.games e.game_date = true := by
        rw [he]
        exact hd
      rw [upsert_game_overwrite hd1, upsert_game_overwrite hd2]
      rw [show ({ s with games := writeFields s.games g now } : Store).games =
            writeFields s.games g now from rfl]
      rw [writeFields_absorb he]
    · have hex2 : ∃ x ∈ rest, x.game_date = g.game_date := by
        rcases hex with ⟨x, hx, hdd⟩
        rcases List.mem_cons.mp hx with rfl | hmem
        · exact absurd hdd he
        · exact ⟨x, hmem, hdd⟩
      by_cases hde : hasDate s.games e.game_date = true
      · have hd1 : hasDate (writeFields s.games g now) e.game_date = true := by
          rw [hasDate_writeFields]
          exact hde
        rw [upsert_game_overwrite hd1, upsert_game_overwrite hde]
        rw [show ({ s with games := writeFields s.games g now } : Store).games =
              writeFields s.games g now from rfl]
        rw [writeFields_comm he]
        exact ih { s with games := writeFields s.games e now } g now
          (by rw [show ({ s with games := writeFields s.games e now } : Store).games =
                writeFields s.games e now from rfl, hasDate_writeFields]; exact hd) hex2
      · have hde' : hasDate s.games e.game_date = false := by
          simpa using hde
        have hd1 : hasDate (writeFields s.games g now) e.game_date = false := by
          rw [hasDate_writeFields]
          exact hde'
        rw [upsert_game_insert hd1, upsert_game_insert hde']
        have hnew : (newGameRow s.next_game_id e now).game_date ≠ g.game_date := by
          intro hx
          rw [show (newGameRow s.next_game_id e now).game_date = e.game_date from rfl] at hx
          exact he hx
        have hrw : writeFields s.games g now ++ [newGameRow s.next_game_id e now] =
            writeFields (s.games ++ [newGameRow s.next_game_id e now]) g now := by
          rw [writeFields_append hnew]
        rw [show ({ s with games := writeFields s.games g now } : Store).games =
              writeFields s.games g now from rfl]
        rw [show ({ s with games := writeFields s.games g now } : Store).next_game_id =
              s.next_game_id from rfl]
        rw [hrw]
        exact ih
          { s with
            games := s.games ++ [newGameRow s.next_game_id e now]
            next_game_id := s.next_game_id + 1 } g now
          (by rw [show ({ s with
                  games := s.games ++ [newGameRow s.next_game_id e now]
                  next_game_id := s.next_game_id + 1 } : Store).games =
                s.games ++ [newGameRow s.next_game_id e now] from rfl,
              hasDate_append, hd]; rfl) hex2

theorem ingest_ingest (es : List GameInput) :
    ∀ (s : Store) (now : Nat), ingest (ingest s es now) es now = ingest s es now := by
  induction es with
  | nil => intro s now; rfl
  | cons e rest ih =>
    intro s now
    rw [ingest_cons, ingest_cons]
    have hIH : ingest (ingest (upsert_game s e now) rest now) rest now =
        ingest (upsert_game s e now) rest now := ih (upsert_game s e now) now
    have hdT : hasDate (ingest (upsert_game s e now) rest now).games e.game_date = true :=
      hasDate_mono_ingest rest _ now e.game_date (hasDate_upsert_self s e now)
    by_cases hx : ∃ x ∈ rest, x.game_date = e.game_date
    · rw [upsert_game_overwrite hdT]
      rw [ingest_writeFields_eq rest (ingest (upsert_game s e now) rest now) e now hdT hx]
      exact hIH
    · push_neg at hx
      have hm : rowsMatch (ingest (upsert_game s e now) rest now).games e now :=
        rowsMatch_ingest rest (upsert_game s e now) e now hx (rowsMatch_upsert s e now)
      rw [upsert_game_of_match hdT hm]
      exact hIH

theorem datesNodup_upsert {s : Store} (g : GameInput) (now : Nat) (h : datesNodup s) :
    datesNodup (upsert_game s g now) := by
  unfold datesNodup at *
  by_cases hd : hasDate s.games g.game_date = true
  · rw [upsert_game_overwrite hd]
    rw [show ({ s with games := writeFields s.games g now } : Store).games =
          writeFields s.games g now from rfl]
    rw [writeFields_map_date]
    exact h
  · have hd' : hasDate s.games g.game_date = false := by simpa using hd
    rw [upsert_game_insert hd']
    rw [show ({ s with
          games := s.games ++ [newGameRow s.next_game_id g now]
          next_game_id := s.next_game_id + 1 } : Store).games =
        s.games ++ [newGameRow s.next_game_id g now] from rfl]
    rw [List.map_append, List.nodup_append]
    refine ⟨h, List.nodup_singleton _, ?_⟩
    intro x hx hx2
    rcases List.mem_map.mp hx with ⟨row, hrow, hdate⟩
    have hx3 : x = g.game_date := by simpa [newGameRow] using hx2
    exact (hasDate_false_iff _ _).mp hd' row hrow (by rw [← hx3]; exact hdate)

theorem datesNodup_ingest (es : List GameInput) :
    ∀ (s : Store) (now : Nat), datesNodup s → datesNodup (ingest s es now) := by
  induction es with
  | nil => intro s now h; exact h
  | cons e rest ih =>
    intro s now h
    rw [ingest_cons]
    exact ih _ now (datesNodup_upsert e now h)

/-! ## Lemmas about the delivery dispatcher -/

theorem matchesTriple_update (a : AlertRow) (t : Triple) (st : String) (n : Nat) :
    matchesTriple { a with status := st, sent_at := n } t = matchesTriple a t :=
  rfl

theorem matchesTriple_mk_self (i n : Nat) (st : String) (t : Triple) :
    matchesTriple ⟨i, t.1, t.2.1, t.2.2, n, st⟩ t = true := by
  simp [matchesTriple]

theorem eq_of_matchesTriple {a : AlertRow} {t u : Triple}
    (ht : matchesTriple a t = true) (hu : matchesTriple a u = true) : t = u := by
  simp [matchesTriple, Bool.and_eq_true, beq_iff_eq] at ht hu
  rcases ht with ⟨⟨h1, h2⟩, h3⟩
  rcases hu with ⟨⟨h4, h5⟩, h6⟩
  rw [Prod.ext_iff, Prod.ext_iff]
  exact ⟨h1.symm.trans h4, h2.symm.trans h5, h3.symm.trans h6⟩

theorem matchesTriple_mk_ne {i n : Nat} {st : String} {t u : Triple} (h : u ≠ t) :
    matchesTriple ⟨i, u.1, u.2.1, u.2.2, n, st⟩ t = false := by
  cases hm : matchesTriple ⟨i, u.1, u.2.1, u.2.2, n, st⟩ t
  · rfl
  · exact absurd (eq_of_matchesTriple (matchesTriple_mk_self i n st u) hm) h

theorem mem_tripleRows {s : Store} {t : Triple} {a : AlertRow} :
    a ∈ tripleRows s t ↔ a ∈ s.alerts_sent ∧ matchesTriple a t = true :=
  List.mem_filter

theorem hasRecord_false_iff (s : Store) (t : Triple) :
    hasRecord s t = false ↔ tripleRows s t = [] := by
  simp [hasRecord, tripleRows, List.any_eq_false, List.filter_eq_nil_iff]

theorem any_filter_and (l : List AlertRow) (p q : AlertRow → Bool) :
    l.any (fun a => p a && q a) = (l.filter p).any q := by
  induction l with
  | nil => rfl
  | cons a l ih =>
    cases h : p a
    · simp only [List.any_cons, List.filter_cons, h, Bool.false_and, Bool.false_or,
        Bool.false_eq_true, if_false, ite_false]
      exact ih
    · simp only [List.any_cons, List.filter_cons, h, Bool.true_and, if_true, ite_true]
      rw [ih]

theorem hasDelivered_eq (s : Store) (t : Triple) :
    hasDelivered s t = (tripleRows s t).any (fun a => a.status == "delivered") := by
  unfold hasDelivered tripleRows
  exact any_filter_and s.alerts_sent _ _

theorem hasDelivered_congr {s s' : Store} {t : Triple}
    (h : tripleRows s' t = tripleRows s t) : hasDelivered s' t = hasDelivered s t := by
  rw [hasDelivered_eq, hasDelivered_eq, h]

theorem hasRecord_congr {s s' : Store} {t : Triple}
    (h : tripleRows s' t = tripleRows s t) : hasRecord s' t = hasRecord s t := by
  cases h1 : hasRecord s' t <;> cases h2 : hasRecord s t
  · rfl
  · exfalso
    have e1 := (hasRecord_false_iff s' t).mp h1
    rw [h] at e1
    rw [(hasRecord_false_iff s t).mpr e1] at h2
    exact Bool.false_ne_true h2
  · exfalso
    have e1 := (hasRecord_false_iff s t).mp h2
    rw [← h] at e1
    rw [(hasRecord_false_iff s' t).mpr e1] at h1
    exact Bool.false_ne_true h1
  · rfl

theorem hasDelivered_false_of_no_record {s : Store} {t : Triple}
    (h : hasRecord s t = false) : hasDelivered s t = false := by
  rw [hasDelivered_eq, (hasRecord_false_iff s t).mp h]
  rfl

theorem filter_map_update (l : List AlertRow) {t u : Triple} (hne : u ≠ t)
    (st : String) (now : Nat) :
    (l.map (fun a => if matchesTriple a u then { a with status := st, sent_at := now }
        else a)).filter (fun a => matchesTriple a t) =
      l.filter (fun a => matchesTriple a t) := by
  induction l with
  | nil => rfl
  | cons a l ih =>
    by_cases hat : matchesTriple a t = true
    · have hau : matchesTriple a u = false := by
        cases h2 : matchesTriple a u
        · rfl
        · exact absurd (eq_of_matchesTriple hat h2) (fun x => hne x.symm)
      simp only [List.map_cons, hau, Bool.false_eq_true, if_false, List.filter_cons, hat,
        if_true, ite_true]
      rw [ih]
    · have hat' : matchesTriple a t = false := by simpa using hat
      by_cases hau : matchesTriple a u = true
      · simp only [List.map_cons, hau, if_true, ite_true, List.filter_cons,
          matchesTriple_update, hat', Bool.false_eq_true, if_false, ite_false]
        exact ih
      · have hau' : matchesTriple a u = false := by simpa using hau
        simp only [List.map_cons, hau', Bool.false_eq_true, if_false, ite_false,
          List.filter_cons, hat']
        exact ih

theorem tripleRows_recordOutcome_ne {s : Store} {t u : Triple} (hne : u ≠ t)
    (ok : Bool) (now : Nat) :
    tripleRows (recordOutcome s u ok now) t = tripleRows s t := by
  unfold recordOutcome tripleRows
  by_cases hr : hasRecord s u = true
  · simp only [hr, if_true, ite_true]
    exact filter_map_update s.alerts_sent hne _ now
  · have hr' : hasRecord s u = false := by simpa using hr
    simp only [hr', Bool.false_eq_true, if_false, ite_false, List.filter_append]
    rw [show (List.filter (fun a => matchesTriple a t)
        [⟨s.next_alert_id, u.1, u.2.1, u.2.2, now, if ok then "delivered" else "failed"⟩] :
          List AlertRow) = [] from by simp [List.filter_cons, matchesTriple_mk_ne hne]]
    simp

theorem recordOutcome_core (s : Store) (u : Triple) (ok : Bool) (now : Nat) :
    (recordOutcome s u ok now).games = s.games ∧
      (recordOutcome s u ok now).promotions = s.promotions ∧
      (recordOutcome s u ok now).recipients = s.recipients := by
  unfold recordOutcome
  by_cases hr : hasRecord s u = true <;> simp [hr]

theorem tripleRows_recordOutcome_self_insert {s : Store} {u : Triple}
    (h : hasRecord s u = false) (ok : Bool) (now : Nat) :
    tripleRows (recordOutcome s u ok now) u =
      [⟨s.next_alert_id, u.1, u.2.1, u.2.2, now, if ok then "delivered" else "failed"⟩] := by
  unfold recordOutcome tripleRows
  simp only [h, Bool.false_eq_true, if_false, ite_false, List.filter_append]
  rw [show List.filter (fun a => matchesTriple a u) s.alerts_sent = [] from
    (hasRecord_false_iff s u).mp h]
  simp [List.filter_cons, matchesTriple_mk_self]

theorem dispatch_skip {p : Provider} {now : Nat} {acc : Store × List Triple} {t : Triple}
    (h : hasDelivered acc.1 t = true) : dispatchTriple p now acc t = acc := by
  unfold dispatchTriple
  simp [h]

theorem dispatch_call {p : Provider} {now : Nat} {acc : Store × List Triple} {t : Triple}
    (h : hasDelivered acc.1 t = false) :
    dispatchTriple p now acc t = (recordOutcome acc.1 t (p t) now, acc.2 ++ [t]) := by
  unfold dispatchTriple
  simp [h]

theorem step_rows_ne {p : Provider} {now : Nat} {acc : Store × List Triple} {u t : Triple}
    (hne : u ≠ t) :
    tripleRows (dispatchTriple p now acc u).1 t = tripleRows acc.1 t := by
  cases hb : hasDelivered acc.1 u
  · rw [dispatch_call hb]
    exact tripleRows_recordOutcome_ne hne (p u) now
  · rw [dispatch_skip hb]

theorem step_core (p : Provider) (now : Nat) (acc : Store × List Triple) (u : Triple) :
    (dispatchTriple p now acc u).1.games = acc.1.games ∧
      (dispatchTriple p now acc u).1.promotions = acc.1.promotions ∧
      (dispatchTriple p now acc u).1.recipients = acc.1.recipients := by
  cases hb : hasDelivered acc.1 u
  · rw [dispatch_call hb]
    exact recordOutcome_core acc.1 u (p u) now
  · rw [dispatch_skip hb]
    exact ⟨rfl, rfl, rfl⟩

theorem foldD_core (p : Provider) (now : Nat) (ts : List Triple) :
    ∀ acc : Store × List Triple,
      (ts.foldl (dispatchTriple p now) acc).1.games = acc.1.games ∧
        (ts.foldl (dispatchTriple p now) acc).1.promotions = acc.1.promotions ∧
        (ts.foldl (dispatchTriple p now) acc).1.recipients = acc.1.recipients := by
  induction ts with
  | nil => intro acc; exact ⟨rfl, rfl, rfl⟩
  | cons u rest ih =>
    intro acc
    rw [List.foldl_cons]
    rcases ih (dispatchTriple p now acc u) with ⟨h1, h2, h3⟩
    rcases step_core p now acc u with ⟨g1, g2, g3⟩
    exact ⟨h1.trans g1, h2.trans g2, h3.trans g3⟩

theorem foldD_rows_of_not_mem (p : Provider) (now : Nat) (ts : List Triple) :
    ∀ (acc : Store × List Triple) (t : Triple), t ∉ ts →
      tripleRows ((ts.foldl (dispatchTriple p now) acc).1) t = tripleRows acc.1 t := by
  induction ts with
  | nil => intro acc t _; rfl
  | cons u rest ih =>
    intro acc t hni
    have hu : u ≠ t := fun x => hni (x ▸ List.mem_cons_self u rest)
    have hr : t ∉ rest := fun x => hni (List.mem_cons_of_mem u x)
    rw [List.foldl_cons, ih _ t hr]
    exact step_rows_ne hu

theorem foldD_calls_mono (p : Provider) (now : Nat) (ts : List Triple) :
    ∀ (acc : Store × List Triple) (x : Triple), x ∈ acc.2 →
      x ∈ (ts.foldl (dispatchTriple p now) acc).2 := by
  induction ts with
  | nil => intro acc x h; exact h
  | cons u rest ih =>
    intro acc x h
    rw [List.foldl_cons]
    apply ih
    cases hb : hasDelivered acc.1 u
    · rw [dispatch_call hb]
      exact List.mem_append_left _ h
    · rw [dispatch_skip hb]
      exact h

theorem foldD_delivered (p : Provider) (now : Nat) (ts : List Triple) :
    ∀ (acc : Store × List Triple) (t : Triple), hasDelivered acc.1 t = true →
      tripleRows ((ts.foldl (dispatchTriple p now) acc).1) t = tripleRows acc.1 t ∧
        (t ∉ acc.2 → t ∉ (ts.foldl (dispatchTriple p now) acc).2) := by
  induction ts with
  | nil => intro acc t _; exact ⟨rfl, fun h => h⟩
  | cons u rest ih =>
    intro acc t h
    rw [List.foldl_cons]
    by_cases hu : u = t
    · subst hu
      rw [dispatch_skip h]
      exact ih acc u h
    · have hstep : tripleRows (dispatchTriple p now acc u).1 t = tripleRows acc.1 t :=
        step_rows_ne hu
      have hdel : hasDelivered (dispatchTriple p now acc u).1 t = true := by
        rw [hasDelivered_congr hstep]
        exact h
      rcases ih (dispatchTriple p now acc u) t hdel with ⟨h1, h2⟩
      refine ⟨h1.trans hstep, fun hni => h2 ?_⟩
      cases hb : hasDelivered acc.1 u
      · rw [dispatch_call hb]
        intro hx
        rcases List.mem_append.mp hx with hx1 | hx2
        · exact hni hx1
        · have ht : t = u := by simpa using hx2
          exact hu ht.symm
      · rw [dispatch_skip hb]
        exact hni

theorem foldD_called (p : Provider) (now : Nat) (ts : List Triple) :
    ∀ (acc : Store × List Triple) (t : Triple), hasDelivered acc.1 t = false → t ∈ ts →
      t ∈ (ts.foldl (dispatchTriple p now) acc).2 := by
  induction ts with
  | nil => intro acc t _ h; exact absurd h (List.not_mem_nil t)
  | cons u rest ih =>
    intro acc t h hmem
    rw [List.foldl_cons]
    by_cases hu : u = t
    · subst hu
      rw [dispatch_call h]
      exact foldD_calls_mono p now rest _ u (List.mem_append_right _ (List.mem_singleton.mpr rfl))
    · have hstep : tripleRows (dispatchTriple p now acc u).1 t = tripleRows acc.1 t :=
        step_rows_ne hu
      have hdel : hasDelivered (dispatchTriple p now acc u).1 t = false := by
        rw [hasDelivered_congr hstep]
        exact h
      rcases List.mem_cons.mp hmem with rfl | hmem2
      · exact absurd rfl hu
      · exact ih _ t hdel hmem2

theorem tripleRows_recordOutcome_update_self {s : Store} {u : Triple}
    (hr : hasRecord s u = true) (ok : Bool) (now : Nat) :
    tripleRows (recordOutcome s u ok now) u =
      (tripleRows s u).map
        (fun a => { a with status := if ok then "delivered" else "failed", sent_at := now }) := by
  unfold recordOutcome tripleRows
  simp only [hr, if_true, ite_true]
  rw [List.filter_map]
  have hpf : ((fun a => matchesTriple a u) ∘
      (fun a => if matchesTriple a u = true then
        { a with status := if ok then "delivered" else "failed", sent_at := now } else a)) =
      fun a => matchesTriple a u := by
    funext a
    by_cases h : matchesTriple a u = true <;>
      simp [Function.comp, h, matchesTriple_update]
  rw [hpf]
  apply List.map_congr_left
  intro a ha
  simp [(List.mem_filter.mp ha).2]

theorem recordOutcome_unique {s : Store} (h : tripleUnique s) (u : Triple) (ok : Bool)
    (now : Nat) : tripleUnique (recordOutcome s u ok now) := by
  intro t
  by_cases htu : u = t
  · subst htu
    by_cases hr : hasRecord s u = true
    · rw [tripleRows_recordOutcome_update_self hr, List.length_map]
      exact h u
    · have hr' : hasRecord s u = false := by simpa using hr
      rw [tripleRows_recordOutcome_self_insert hr']
      simp
  · rw [tripleRows_recordOutcome_ne htu]
    exact h t

theorem foldD_unique (p : Provider) (now : Nat) (ts : List Triple) :
    ∀ acc : Store × List Triple, tripleUnique acc.1 →
      tripleUnique (ts.foldl (dispatchTriple p now) acc).1 := by
  induction ts with
  | nil => intro acc h; exact h
  | cons u rest ih =>
    intro acc h
    rw [List.foldl_cons]
    apply ih
    cases hb : hasDelivered acc.1 u
    · rw [dispatch_call hb]
      exact recordOutcome_unique h u (p u) now
    · rw [dispatch_skip hb]
      exact h

theorem foldD_outcome (p : Provider) (now : Nat) (ts : List Triple) :
    ∀ (acc : Store × List Triple) (t : Triple), hasRecord acc.1 t = false → ts.count t = 1 →
      ∃ i, tripleRows ((ts.foldl (dispatchTriple p now) acc).1) t =
        [⟨i, t.1, t.2.1, t.2.2, now, if p t then "delivered" else "failed"⟩] := by
  induction ts with
  | nil =>
    intro acc t _ hc
    simp at hc
  | cons u rest ih =>
    intro acc t h0 hc
    rw [List.foldl_cons]
    by_cases hu : u = t
    · subst hu
      have hrest : u ∉ rest := by
        rw [List.count_cons] at hc
        simp only [beq_self_eq_true, if_true, ite_true] at hc
        exact List.count_eq_zero.mp (by omega)
      have hdel : hasDelivered acc.1 u = false := hasDelivered_false_of_no_record h0
      rw [dispatch_call hdel]
      rw [foldD_rows_of_not_mem p now rest _ u hrest]
      exact ⟨acc.1.next_alert_id, tripleRows_recordOutcome_self_insert h0 (p u) now⟩
    · have hc' : rest.count t = 1 := by
        rw [List.count_cons] at hc
        have : (u == t) = false := by
          simp only [beq_eq_false_iff_ne, ne_eq]
          exact hu
        rw [this] at hc
        simpa using hc
      have hstep : tripleRows (dispatchTriple p now acc u).1 t = tripleRows acc.1 t :=
        step_rows_ne hu
      have h0' : hasRecord (dispatchTriple p now acc u).1 t = false := by
        rw [hasRecord_congr hstep]
        exact h0
      exact ih _ t h0' hc'

theorem run_alerts_ok_inv {s : Store} {today lead now thr : Nat} {p : Provider}
    {res : RunResult} (h : run_alerts s today lead now thr p = Except.ok res) :
    check_data_freshness s now thr = true ∧
      res.store = ((triplesFor s (today + lead)).foldl (dispatchTriple p now) (s, [])).1 ∧
      res.calls = ((triplesFor s (today + lead)).foldl (dispatchTriple p now) (s, [])).2 := by
  unfold run_alerts at h
  by_cases hc : check_data_freshness s now thr = true
  · simp only [hc, if_true, ite_true, Except.ok.injEq] at h
    exact ⟨hc, by rw [← h], by rw [← h]⟩
  · rw [if_neg hc] at h
    exact Except.noConfusion h

/-! ## Lemmas about the sync status and freshness guard -/

theorem hasDate_true_iff (gs : List GameRow) (d : Nat) :
    hasDate gs d = true ↔ ∃ row ∈ gs, row.game_date = d := by
  simp [hasDate, List.any_eq_true]

theorem foldl_max_le {a : Nat} (xs : List Nat) :
    ∀ acc, acc ≤ a → (∀ x ∈ xs, x ≤ a) → xs.foldl max acc ≤ a := by
  induction xs with
  | nil => intro acc h _; exact h
  | cons x xs ih =>
    intro acc hacc hall
    rw [List.foldl_cons]
    exact ih (max acc x)
      (Nat.max_le.mpr ⟨hacc, hall x (List.mem_cons_self x xs)⟩)
      (fun y hy => hall y (List.mem_cons_of_mem x hy))

theorem le_foldl_max (xs : List Nat) : ∀ acc, acc ≤ xs.foldl max acc := by
  induction xs with
  | nil => intro acc; exact Nat.le_refl acc
  | cons x xs ih =>
    intro acc
    rw [List.foldl_cons]
    exact Nat.le_trans (Nat.le_max_left acc x) (ih (max acc x))

theorem mem_le_foldl_max (xs : List Nat) :
    ∀ acc x, x ∈ xs → x ≤ xs.foldl max acc := by
  induction xs with
  | nil => intro acc x h; exact absurd h (List.not_mem_nil x)
  | cons y ys ih =>
    intro acc x h
    rw [List.foldl_cons]
    rcases List.mem_cons.mp h with rfl | h2
    · exact Nat.le_trans (Nat.le_max_right acc x) (le_foldl_max ys (max acc x))
    · exact ih (max acc y) x h2

theorem foldl_max_mem (xs : List Nat) :
    ∀ acc, xs.foldl max acc = acc ∨ xs.foldl max acc ∈ xs := by
  induction xs with
  | nil => intro acc; exact Or.inl rfl
  | cons x xs ih =>
    intro acc
    rw [List.foldl_cons]
    rcases ih (max acc x) with h | h
    · rcases max_choice acc x with h2 | h2
      · exact Or.inl (by rw [h, h2])
      · exact Or.inr (by rw [h, h2]; exact List.mem_cons_self x xs)
    · exact Or.inr (List.mem_cons_of_mem x h)

theorem max?_eq_some_of_mem_of_le {l : List Nat} {a : Nat} (ha : a ∈ l)
    (hle : ∀ x ∈ l, x ≤ a) : l.max? = some a := by
  cases l with
  | nil => exact absurd ha (List.not_mem_nil a)
  | cons x xs =>
    show some (xs.foldl max x) = some a
    congr 1
    apply Nat.le_antisymm
    · exact foldl_max_le xs x (hle x (List.mem_cons_self x xs))
        (fun y hy => hle y (List.mem_cons_of_mem x hy))
    · rcases List.mem_cons.mp ha with rfl | h2
      · exact le_foldl_max xs a
      · exact mem_le_foldl_max xs x a h2

theorem max?_is_max {l : List Nat} {t : Nat} (h : l.max? = some t) :
    t ∈ l ∧ ∀ x ∈ l, x ≤ t := by
  cases l with
  | nil => exact Option.noConfusion h
  | cons x xs =>
    have ht : t = xs.foldl max x := (Option.some.injEq _ _ ▸ h).symm
    constructor
    · rw [ht]
      rcases foldl_max_mem xs x with h2 | h2
      · rw [h2]; exact List.mem_cons_self x xs
      · exact List.mem_cons_of_mem x h2
    · intro y hy
      rw [ht]
      rcases List.mem_cons.mp hy with rfl | h2
      · exact le_foldl_max xs y
      · exact mem_le_foldl_max xs x y h2

theorem getSyncStatus_congr {s s' : Store} (h : s'.games = s.games) :
    getSyncStatus s' = getSyncStatus s := by
  unfold getSyncStatus
  rw [h]

theorem check_data_freshness_congr {s s' : Store} (h : s'.games = s.games)
    (now thr : Nat) : check_data_freshness s' now thr = check_data_freshness s now thr := by
  unfold check_data_freshness
  rw [getSyncStatus_congr h]

/-! ## Lemmas about promotions -/

theorem newPromoRows_fields (gid now : Nat) (ps : List (String × String)) :
    ∀ (nextId : Nat) (q : PromoRow), q ∈ newPromoRows gid nextId now ps →
      q.game_id = gid ∧ (q.promo_type, q.description) ∈ ps := by
  induction ps with
  | nil => intro nextId q h; exact absurd h (List.not_mem_nil q)
  | cons pr rest ih =>
    intro nextId q h
    rcases pr with ⟨t, d⟩
    rcases List.mem_cons.mp h with rfl | h2
    · exact ⟨rfl, List.mem_cons_self _ _⟩
    · rcases ih (nextId + 1) q h2 with ⟨h3, h4⟩
      exact ⟨h3, List.mem_cons_of_mem _ h4⟩

theorem filter_newPromoRows_self (gid now : Nat) (ps : List (String × String)) :
    ∀ nextId : Nat, (newPromoRows gid nextId now ps).filter (fun p => p.game_id == gid) =
      newPromoRows gid nextId now ps := by
  induction ps with
  | nil => intro nextId; rfl
  | cons pr rest ih =>
    intro nextId
    rcases pr with ⟨t, d⟩
    show List.filter _ (⟨nextId, gid, t, d, now⟩ :: newPromoRows gid (nextId + 1) now rest) = _
    rw [List.filter_cons]
    simp only [beq_self_eq_true, if_true, ite_true]
    rw [ih (nextId + 1)]
    rfl

/-! ## Lemmas about the selector and the alert run -/

theorem triplesFor_congr {s s' : Store} (hg : s'.games = s.games)
    (hr : s'.recipients = s.recipients) (x : Nat) : triplesFor s' x = triplesFor s x := by
  unfold triplesFor get_qualifying_games
  rw [hg, hr]

theorem run_alerts_empty {s : Store} {today n : Nat}
    (hq : get_qualifying_games s (today + n) = []) (now thr : Nat) (p : Provider)
    (hc : check_data_freshness s now thr = true) :
    run_alerts s today n now thr p = Except.ok ⟨s, []⟩ := by
  unfold run_alerts
  rw [if_pos hc]
  unfold triplesFor
  rw [hq]
  rfl

/-! ## Claim theorems -/

/-- C1: for every (game, recipient, channel) triple, at most one successful
delivery ever occurs - before invoking any provider the dispatcher checks
the audit store for a delivered record of the triple and skips as a no-op
when one exists (no provider call is made and the triple's audit rows stay
unchanged), and the uniqueness constraint on (game_id, recipient_id,
channel) is preserved by every run, so a second record for the same triple
is impossible. -/
theorem delivery_at_most_once (s : Store) (today lead now thr : Nat) (p : Provider)
    (res : RunResult) (t : Triple)
    (hrun : run_alerts s today lead now thr p = Except.ok res) :
    (hasDelivered s t = true →
      t ∉ res.calls ∧ tripleRows res.store t = tripleRows s t) ∧
    (tripleUnique s → tripleUnique res.store) := by
  rcases run_alerts_ok_inv hrun with ⟨_, hst, hca⟩
  constructor
  · intro hdel
    rcases foldD_delivered p now (triplesFor s (today + lead)) (s, []) t hdel with ⟨h1, h2⟩
    constructor
    · rw [hca]
      exact h2 (List.not_mem_nil t)
    · rw [hst]
      exact h1
  · intro hun
    rw [hst]
    exact foldD_unique p now _ (s, []) hun

/-- Witness for C1 on the fixture store that already holds a delivered
sms record for recipient A: the re-run never calls the provider for that
triple, leaves its audit rows unchanged, and keeps the audit log unique. -/
theorem delivery_at_most_once_witness :
    ((1, 1, Channel.sms) : Triple) ∉ wC1Res.calls ∧
      tripleRows wC1Res.store (1, 1, Channel.sms) =
        tripleRows wStoreDelivered (1, 1, Channel.sms) ∧
      tripleUnique wC1Res.store := by
  have h := delivery_at_most_once wStoreDelivered 95 5 60 20 wProvider wC1Res
    (1, 1, Channel.sms) (by decide)
  have hu : tripleUnique wStoreDelivered := by
    intro t
    exact List.length_filter_le _ _
  exact ⟨(h.1 (by decide)).1, (h.1 (by decide)).2, h.2 hu⟩

/-- C2: when the store's maximum game last-modified timestamp is older
than the freshness threshold, the whole alert run aborts with a
data-freshness failure for every provider, before any provider invocation
and without creating any DeliveryRecord. -/
theorem stale_store_aborts_run (s : Store) (today lead now thr : Nat) (p : Provider)
    (t : Nat) (hs : getSyncStatus s = some t) (hstale : thr < now - t) :
    run_alerts s today lead now thr p = Except.error "data-freshness failure" := by
  unfold run_alerts
  have hc : check_data_freshness s now thr = false := by
    unfold check_data_freshness
    rw [hs]
    exact decide_eq_false (Nat.not_le.mpr hstale)
  have hc2 : ¬(check_data_freshness s now thr = true) := by
    rw [hc]
    exact Bool.false_ne_true
  rw [if_neg hc2]

/-- Witness for C2: the fixture store last synced at 50; at time 120 with
threshold 20 the run aborts with the data-freshness failure. -/
theorem stale_store_aborts_run_witness :
    getSyncStatus wStore = some 50 ∧ 20 < 120 - 50 ∧
      run_alerts wStore 95 5 120 20 wProvider = Except.error "data-freshness failure" :=
  ⟨by decide, by decide,
    stale_store_aborts_run wStore 95 5 120 20 wProvider 50 (by decide) (by decide)⟩

/-- C3: schedule ingestion is idempotent - running the upsert-by-date
ingestion twice with identical source data leaves the store byte-for-byte
equal to running it once, and ingestion preserves the at-most-one-game-
per-calendar-date invariant. -/
theorem schedule_ingestion_idempotent (s : Store) (es : List GameInput) (now : Nat) :
    ingest (ingest s es now) es now = ingest s es now ∧
      (datesNodup s → datesNodup (ingest s es now)) :=
  ⟨ingest_ingest es s now, datesNodup_ingest es s now⟩

/-- Witness for C3 on the fixture store and a two-entry source dataset. -/
theorem schedule_ingestion_idempotent_witness :
    ingest (ingest wStore [wEntry, wEntry2] 60) [wEntry, wEntry2] 60 =
        ingest wStore [wEntry, wEntry2] 60 ∧
      datesNodup (ingest wStore [wEntry, wEntry2] 60) :=
  ⟨(schedule_ingestion_idempotent wStore [wEntry, wEntry2] 60).1,
    (schedule_ingestion_idempotent wStore [wEntry, wEntry2] 60).2
      (by unfold datesNodup; decide)⟩

/-- C4: for a reference date today and lead time n, the selector returns
exactly the home games dated today + n whose day-of-week is Friday,
Saturday or Sunday, as a sequence ordered by date; the empty sequence is
valid and makes the run terminate with no provider calls and the store
untouched. -/
theorem lead_time_selector_spec (s : Store) (today n : Nat) (g : GameRow) :
    (g ∈ get_qualifying_games s (today + n) ↔
      g ∈ s.games ∧ g.game_date = today + n ∧ g.is_home = true ∧
        g.day_of_week ∈ weekendNames) ∧
    List.Sorted byDate (get_qualifying_games s (today + n)) ∧
    (∀ (now thr : Nat) (p : Provider), get_qualifying_games s (today + n) = [] →
      check_data_freshness s now thr = true →
      run_alerts s today n now thr p = Except.ok ⟨s, []⟩) := by
  refine ⟨?_, List.sorted_insertionSort byDate _, ?_⟩
  · unfold get_qualifying_games
    rw [List.mem_insertionSort, List.mem_filter]
    simp only [Bool.and_eq_true, beq_iff_eq, List.elem_iff, decide_eq_true_eq]
    constructor
    · rintro ⟨h1, ⟨h2, h3⟩, h4⟩
      exact ⟨h1, h2, h3, h4⟩
    · rintro ⟨h1, h2, h3, h4⟩
      exact ⟨h1, ⟨h2, h3⟩, h4⟩
  · intro now thr p hq hc
    exact run_alerts_empty hq now thr p hc

/-- Witness for C4: the Friday fixture game qualifies five days ahead of
day 95, and on the Tuesday-only store the selector is empty and the run
ends with no calls. -/
theorem lead_time_selector_spec_witness :
    wGame ∈ get_qualifying_games wStore (95 + 5) ∧
      run_alerts wStoreTue 95 5 60 20 wProvider = Except.ok ⟨wStoreTue, []⟩ :=
  ⟨(lead_time_selector_spec wStore 95 5 wGame).1.mpr (by decide),
    (lead_time_selector_spec wStoreTue 95 5 wGame).2.2 60 20 wProvider (by decide) (by decide)⟩

/-- C5: delivery failures are isolated per triple - when the provider
fails for recipient A and succeeds for recipient B on the same game and
channel, the run returns normally, the store ends with a failed record
for A and a delivered record for B, and any subsequent run re-attempts
A's triple but never B's. -/
theorem provider_failure_isolated (s : Store) (today lead now thr : Nat) (p : Provider)
    (gid ridA ridB : Nat) (c : Channel)
    (hfresh : check_data_freshness s now thr = true)
    (hA1 : (triplesFor s (today + lead)).count (gid, ridA, c) = 1)
    (hB1 : (triplesFor s (today + lead)).count (gid, ridB, c) = 1)
    (hA0 : hasRecord s (gid, ridA, c) = false)
    (hB0 : hasRecord s (gid, ridB, c) = false)
    (hpA : p (gid, ridA, c) = false)
    (hpB : p (gid, ridB, c) = true) :
    ∃ res, run_alerts s today lead now thr p = Except.ok res ∧
      (∃ i, tripleRows res.store (gid, ridA, c) = [⟨i, gid, ridA, c, now, "failed"⟩]) ∧
      (∃ j, tripleRows res.store (gid, ridB, c) = [⟨j, gid, ridB, c, now, "delivered"⟩]) ∧
      ∀ (now2 thr2 : Nat) (p2 : Provider) (res2 : RunResult),
        run_alerts res.store today lead now2 thr2 p2 = Except.ok res2 →
        (gid, ridA, c) ∈ res2.calls ∧ (gid, ridB, c) ∉ res2.calls := by
  have hAout := foldD_outcome p now (triplesFor s (today + lead)) (s, []) (gid, ridA, c) hA0 hA1
  have hBout := foldD_outcome p now (triplesFor s (today + lead)) (s, []) (gid, ridB, c) hB0 hB1
  rcases hAout with ⟨i, hi⟩
  rcases hBout with ⟨j, hj⟩
  rw [hpA] at hi
  rw [hpB] at hj
  simp only [Bool.false_eq_true, if_false, ite_false] at hi
  simp only [if_true, ite_true] at hj
  refine ⟨⟨((triplesFor s (today + lead)).foldl (dispatchTriple p now) (s, [])).1,
      ((triplesFor s (today + lead)).foldl (dispatchTriple p now) (s, [])).2⟩, ?_, ⟨i, hi⟩,
      ⟨j, hj⟩, ?_⟩
  · unfold run_alerts
    rw [if_pos hfresh]
  · intro now2 thr2 p2 res2 hrun2
    rcases run_alerts_ok_inv hrun2 with ⟨_, _, hca2⟩
    rcases foldD_core p now (triplesFor s (today + lead)) (s, []) with ⟨hg, _, hr2⟩
    have htf : triplesFor
        ((triplesFor s (today + lead)).foldl (dispatchTriple p now) (s, [])).1 (today + lead) =
        triplesFor s (today + lead) := triplesFor_congr hg hr2 (today + lead)
    have hAdel : hasDelivered
        ((triplesFor s (today + lead)).foldl (dispatchTriple p now) (s, [])).1
        (gid, ridA, c) = false := by
      rw [hasDelivered_eq, hi]
      simp
    have hBdel : hasDelivered
        ((triplesFor s (today + lead)).foldl (dispatchTriple p now) (s, [])).1
        (gid, ridB, c) = true := by
      rw [hasDelivered_eq, hj]
      simp
    constructor
    · rw [hca2, htf]
      exact foldD_called p2 now2 (triplesFor s (today + lead))
        (((triplesFor s (today + lead)).foldl (dispatchTriple p now) (s, [])).1, [])
        (gid, ridA, c) hAdel
        (List.count_pos_iff.mp (by rw [hA1]; exact Nat.one_pos))
    · rw [hca2, htf]
      exact (foldD_delivered p2 now2 (triplesFor s (today + lead))
        (((triplesFor s (today + lead)).foldl (dispatchTriple p now) (s, [])).1, [])
        (gid, ridB, c) hBdel).2 (List.not_mem_nil _)

/-- Witness for C5 on the fixture store where both recipients are
reachable by sms and the provider fails for A (id 1) and succeeds for
B (id 2). -/
theorem provider_failure_isolated_witness :
    ∃ res, run_alerts wStoreC5 95 5 60 20 wProvider = Except.ok res ∧
      (∃ i, tripleRows res.store (1, 1, Channel.sms) =
        [⟨i, 1, 1, Channel.sms, 60, "failed"⟩]) ∧
      (∃ j, tripleRows res.store (1, 2, Channel.sms) =
        [⟨j, 1, 2, Channel.sms, 60, "delivered"⟩]) ∧
      ∀ (now2 thr2 : Nat) (p2 : Provider) (res2 : RunResult),
        run_alerts res.store 95 5 now2 thr2 p2 = Except.ok res2 →
        (1, 1, Channel.sms) ∈ res2.calls ∧ (1, 2, Channel.sms) ∉ res2.calls :=
  provider_failure_isolated wStoreC5 95 5 60 20 wProvider 1 1 2 Channel.sms (by decide)
    (by decide) (by decide) (by decide) (by decide) (by decide) (by decide)

/-- C6: each promotion-ingestion run replaces a game's entire promotion
set - the resulting rows for that game are exactly the freshly inserted
set (so an empty list leaves zero stored promotions for the game), other
games' rows are untouched, deleting a game cascade-deletes its
promotions, and both operations keep the store free of orphan
promotions. -/
theorem filter_filter_self {α : Type} (l : List α) (p : α → Bool) :
    (l.filter p).filter p = l.filter p := by
  induction l with
  | nil => rfl
  | cons a l ih =>
    rw [List.filter_cons]
    by_cases h : p a = true
    · rw [if_pos h, List.filter_cons, if_pos h, ih]
    · rw [if_neg h, ih]

theorem filter_ne_newPromoRows (gid now : Nat) (ps : List (String × String)) :
    ∀ nextId, (newPromoRows gid nextId now ps).filter
      (fun p => decide (p.game_id ≠ gid)) = [] := by
  intro nextId
  rw [List.filter_eq_nil_iff]
  intro a ha
  have h1 := (newPromoRows_fields gid now ps nextId a ha).1
  simp [h1]

theorem not_eq_filter_promos (s : Store) (gid : Nat) :
    (s.promotions.filter (fun p => decide (p.game_id ≠ gid))).filter
      (fun p => p.game_id == gid) = [] := by
  rw [List.filter_eq_nil_iff]
  intro a ha
  have h2 := (List.mem_filter.mp ha).2
  simp only [decide_eq_true_eq] at h2
  simp only [beq_iff_eq]
  exact h2

theorem promotion_set_replaced (s : Store) (gid : Nat) (ps : List (String × String))
    (now : Nat) :
    ((upsert_promotions s gid ps now).promotions.filter (fun p => p.game_id == gid) =
      newPromoRows gid s.next_promo_id now ps) ∧
    ((upsert_promotions s gid ps now).promotions.filter (fun p => decide (p.game_id ≠ gid)) =
      s.promotions.filter (fun p => decide (p.game_id ≠ gid))) ∧
    ((upsert_promotions s gid [] now).promotions.filter (fun p => p.game_id == gid) = []) ∧
    ((delete_game s gid).promotions.filter (fun p => p.game_id == gid) = []) ∧
    (orphanFree s → orphanFree (delete_game s gid)) ∧
    (orphanFree s → (∃ g ∈ s.games, g.id = gid) →
      orphanFree (upsert_promotions s gid ps now)) := by
  refine ⟨?_, ?_, ?_, ?_, ?_, ?_⟩
  · show ((s.promotions.filter (fun p => decide (p.game_id ≠ gid)) ++
      newPromoRows gid s.next_promo_id now ps).filter (fun p => p.game_id == gid)) = _
    rw [List.filter_append, not_eq_filter_promos, filter_newPromoRows_self]
    rfl
  · show ((s.promotions.filter (fun p => decide (p.game_id ≠ gid)) ++
      newPromoRows gid s.next_promo_id now ps).filter (fun p => decide (p.game_id ≠ gid))) = _
    rw [List.filter_append, filter_filter_self, filter_ne_newPromoRows, List.append_nil]
  · show ((s.promotions.filter (fun p => decide (p.game_id ≠ gid)) ++
      newPromoRows gid s.next_promo_id now []).filter (fun p => p.game_id == gid)) = []
    rw [show newPromoRows gid s.next_promo_id now [] = [] from rfl, List.append_nil,
      not_eq_filter_promos]
  · show ((s.promotions.filter (fun p => decide (p.game_id ≠ gid))).filter
      (fun p => p.game_id == gid)) = []
    exact not_eq_filter_promos s gid
  · intro hof q hq
    have h2 := List.mem_filter.mp hq
    rcases hof q h2.1 with ⟨g, hg, hgid⟩
    refine ⟨g, ?_, hgid⟩
    apply List.mem_filter.mpr
    refine ⟨hg, ?_⟩
    have h3 : q.game_id ≠ gid := by simpa using h2.2
    simp only [decide_eq_true_eq]
    rw [hgid]
    exact h3
  · intro hof hex q hq
    have hq2 : q ∈ s.promotions.filter (fun p => decide (p.game_id ≠ gid)) ++
        newPromoRows gid s.next_promo_id now ps := hq
    rcases List.mem_append.mp hq2 with h1 | h2
    · exact hof q (List.mem_filter.mp h1).1
    · rcases hex with ⟨g, hg, hgid⟩
      refine ⟨g, hg, ?_⟩
      rw [hgid, (newPromoRows_fields gid now ps s.next_promo_id q h2).1]

/-- Witness for C6: replacing the fixture game's promotion set with the
empty list leaves zero stored promotions for it, deleting the game leaves
none either, and both results are orphan-free. -/
theorem promotion_set_replaced_witness :
    (upsert_promotions wStore 1 [] 60).promotions.filter (fun p => p.game_id == 1) = [] ∧
      (delete_game wStore 1).promotions.filter (fun p => p.game_id == 1) = [] ∧
      orphanFree (delete_game wStore 1) := by
  have h := promotion_set_replaced wStore 1 [] 60
  refine ⟨h.2.2.1, h.2.2.2.1, h.2.2.2.2.1 ?_⟩
  intro p hp
  have hp2 : p = wPromo := by
    have : wStore.promotions = [wPromo] := rfl
    rw [this] at hp
    simpa using hp
  subst hp2
  exact ⟨wGame, by decide, by decide⟩

/-- C7: the jersey override is display-only - a stored promotion whose
description contains jersey (case-insensitively) is presented by the
badge component as a giveaway (Jersey Giveaway label, gift icon), while
the stored promo_type remains the source-classified value from the closed
enum, since promotion ingestion stores exactly the source-classified
(type, description) pairs. -/
theorem jersey_override_display_only (s : Store) (pr : PromoRow)
    (hmem : pr ∈ s.promotions) (hvalid : promoTypesValid s)
    (hj : strIncludes (lower pr.description) "jersey" = true) :
    (PromoBadge pr.promo_type pr.description).label = "Jersey Giveaway" ∧
    (PromoBadge pr.promo_type pr.description).icon = "🎁" ∧
    pr.promo_type ∈ promoTypeEnum ∧
    (∀ (gid : Nat) (ps : List (String × String)) (now : Nat) (q : PromoRow),
      q ∈ (upsert_promotions s gid ps now).promotions → q.game_id = gid →
      (q.promo_type, q.description) ∈ ps) := by
  refine ⟨?_, ?_, hvalid pr hmem, ?_⟩
  · unfold PromoBadge
    simp [hj]
  · unfold PromoBadge
    simp [hj]
  · intro gid ps now q hq hgid
    have hq2 : q ∈ s.promotions.filter (fun p => decide (p.game_id ≠ gid)) ++
        newPromoRows gid s.next_promo_id now ps := hq
    rcases List.mem_append.mp hq2 with h1 | h2
    · have h3 := (List.mem_filter.mp h1).2
      simp only [decide_eq_true_eq] at h3
      exact absurd hgid h3
    · exact (newPromoRows_fields gid now ps s.next_promo_id q h2).2

/-- Witness for C7 on the fixture jersey promotion, whose stored type is
theme: the badge presents it as Jersey Giveaway with the gift icon while
the stored type stays in the enum. -/
theorem jersey_override_display_only_witness :
    (PromoBadge wPromo.promo_type wPromo.description).label = "Jersey Giveaway" ∧
      (PromoBadge wPromo.promo_type wPromo.description).icon = "🎁" ∧
      wPromo.promo_type ∈ promoTypeEnum := by
  have h := jersey_override_display_only wStore wPromo (by decide)
    (by intro p hp; fin_cases hp; decide) (by decide)
  exact ⟨h.1, h.2.1, h.2.2.1⟩

/-- C8: getSyncStatus returns the maximum updated_at over the games table
(null exactly when the table is empty), and - under a monotone clock -
ingesting any schedule entry advances it to the run timestamp. -/
theorem sync_status_is_max_updated (s : Store) :
    (getSyncStatus s = none ↔ s.games = []) ∧
    (∀ t, getSyncStatus s = some t →
      (∃ g ∈ s.games, g.updated_at = t) ∧ ∀ g ∈ s.games, g.updated_at ≤ t) ∧
    (∀ (e : GameInput) (now : Nat), (∀ g ∈ s.games, g.updated_at ≤ now) →
      getSyncStatus (upsert_game s e now) = some now) := by
  refine ⟨?_, ?_, ?_⟩
  · unfold getSyncStatus
    cases hg : s.games with
    | nil => simp
    | cons x xs =>
      constructor
      · intro h
        exact Option.noConfusion (show some ((xs.map (fun g => g.updated_at)).foldl max
          x.updated_at) = none from h)
      · intro h
        exact List.noConfusion h
  · intro t h
    unfold getSyncStatus at h
    rcases max?_is_max h with ⟨hmem, hbound⟩
    constructor
    · rcases List.mem_map.mp hmem with ⟨g, hg, he⟩
      exact ⟨g, hg, he⟩
    · intro g hg
      exact hbound _ (List.mem_map_of_mem _ hg)
  · intro e now hle
    unfold getSyncStatus
    apply max?_eq_some_of_mem_of_le
    · by_cases hd : hasDate s.games e.game_date = true
      · rw [upsert_game_overwrite hd]
        rcases (hasDate_true_iff _ _).mp hd with ⟨row, hrow, hdate⟩
        apply List.mem_map.mpr
        refine ⟨applyInput row e now, ?_, rfl⟩
        unfold writeFields
        exact List.mem_map.mpr ⟨row, hrow, by rw [if_pos hdate]⟩
      · have hd' : hasDate s.games e.game_date = false := by simpa using hd
        rw [upsert_game_insert hd']
        apply List.mem_map.mpr
        exact ⟨newGameRow s.next_game_id e now,
          List.mem_append_right _ (List.mem_singleton.mpr rfl), rfl⟩
    · intro x hx
      by_cases hd : hasDate s.games e.game_date = true
      · rw [upsert_game_overwrite hd] at hx
        rcases List.mem_map.mp hx with ⟨row, hrow, he2⟩
        rcases List.mem_map.mp hrow with ⟨a, ha, he3⟩
        by_cases h2 : a.game_date = e.game_date
        · rw [if_pos h2] at he3
          rw [← he2, ← he3]
          exact Nat.le_refl now
        · rw [if_neg h2] at he3
          rw [← he2, ← he3]
          exact hle a ha
      · have hd' : hasDate s.games e.game_date = false := by simpa using hd
        rw [upsert_game_insert hd'] at hx
        rcases List.mem_map.mp hx with ⟨row, hrow, he2⟩
        rcases List.mem_append.mp hrow with h1 | h2
        · rw [← he2]
          exact hle row h1
        · have h3 : row = newGameRow s.next_game_id e now := by simpa using h2
          rw [← he2, h3]
          exact Nat.le_refl now

/-- Witness for C8: ingesting a new entry at time 60 into the fixture
store (whose games were last touched at 50) advances the sync status to
60, and the current status is the maximum 50. -/
theorem sync_status_is_max_updated_witness :
    getSyncStatus (upsert_game wStore wEntry2 60) = some 60 ∧
      getSyncStatus wStore = some 50 :=
  ⟨(sync_status_is_max_updated wStore).2.2 wEntry2 60 (by decide), by decide⟩

/-- C9: every recipient has at least one of phone or email - the store
CHECK rejects an insert with both absent and accepts only rows keeping
the invariant, and the signup endpoint answers 400 without triggering the
downstream registry update whenever the name is missing or both contact
fields are absent. -/
theorem recipient_contact_required (name phone email : Option String)
    (configOk : Bool) (fetchStatus : Nat) (s : Store) (n : String)
    (p e : Option String) (s' : Store) :
    ((falsyStr name || (falsyStr phone && falsyStr email)) = true →
      POST name phone email configOk fetchStatus = ⟨400, false, false⟩) ∧
    add_recipient s n none none = Except.error "CHECK constraint failed: recipients" ∧
    (recipientsValid s → add_recipient s n p e = Except.ok s' → recipientsValid s') := by
  refine ⟨?_, ?_, ?_⟩
  · intro h
    unfold POST
    rw [if_pos h]
  · unfold add_recipient
    rw [if_pos ⟨rfl, rfl⟩]
  · intro hv hok
    unfold add_recipient at hok
    by_cases hne : p = none ∧ e = none
    · rw [if_pos hne] at hok
      exact Except.noConfusion hok
    · rw [if_neg hne] at hok
      have hs' : { s with
          recipients := s.recipients ++ [⟨s.next_recipient_id, n, p, e, true⟩]
          next_recipient_id := s.next_recipient_id + 1 } = s' := by
        injection hok
      intro r hr
      rw [← hs'] at hr
      have hr2 : r ∈ s.recipients ++ [⟨s.next_recipient_id, n, p, e, true⟩] := hr
      rcases List.mem_append.mp hr2 with h1 | h2
      · exact hv r h1
      · have h3 : r = ⟨s.next_recipient_id, n, p, e, true⟩ := by simpa using h2
        subst h3
        by_cases hp : p = none
        · right
          intro he2
          exact hne ⟨hp, he2⟩
        · left
          exact hp

/-- Witness for C9: a signup with name only is rejected with 400 and no
registry dispatch, the CHECK rejects a contactless insert, and adding a
phone-only recipient to the fixture store keeps the invariant. -/
theorem recipient_contact_required_witness :
    POST (some "A") none none true 204 = ⟨400, false, false⟩ ∧
      add_recipient wStore "X" none none =
        Except.error "CHECK constraint failed: recipients" ∧
      recipientsValid wStoreAdded := by
  have h := recipient_contact_required (some "A") none none true 204 wStore "X"
    (some "+18605550003") none wStoreAdded
  refine ⟨h.1 (by decide), h.2.1, h.2.2 ?_ (by decide)⟩
  intro r hr
  fin_cases hr <;> simp [wRecipA, wRecipB]

/-- C10: getUpcomingGames returns exactly the home games, sorted by
ascending game_date, each carrying exactly the promotion rows whose
game_id equals the game's id; away games never appear. -/
theorem getUpcomingGames_spec (s : Store) (gw : GameWithPromos) :
    (gw ∈ getUpcomingGames s ↔
      gw.game ∈ s.games ∧ gw.game.is_home = true ∧
        gw.promotions = s.promotions.filter (fun p => p.game_id == gw.game.id)) ∧
    List.Sorted byDate ((getUpcomingGames s).map (fun x => x.game)) := by
  constructor
  · unfold getUpcomingGames
    constructor
    · intro h
      rcases List.mem_map.mp h with ⟨g, hg, rfl⟩
      have hg2 := (List.mem_insertionSort byDate).mp hg
      have hg3 := List.mem_filter.mp hg2
      exact ⟨hg3.1, hg3.2, rfl⟩
    · rintro ⟨h1, h2, h3⟩
      apply List.mem_map.mpr
      refine ⟨gw.game, ?_, ?_⟩
      · exact (List.mem_insertionSort byDate).mpr (List.mem_filter.mpr ⟨h1, h2⟩)
      · cases gw with
        | mk game promos =>
          rw [show ({ game := game, promotions := promos } : GameWithPromos).promotions =
            promos from rfl] at h3
          rw [h3]
  · unfold getUpcomingGames
    rw [List.map_map]
    rw [show ((fun x : GameWithPromos => x.game) ∘
        (fun g => (⟨g, s.promotions.filter (fun p => p.game_id == g.id)⟩ : GameWithPromos))) =
        id from rfl]
    rw [List.map_id]
    exact List.sorted_insertionSort byDate _

/-- Witness for C10: the fixture home game appears in getUpcomingGames
with exactly its promotion row. -/
theorem getUpcomingGames_spec_witness :
    (⟨wGame, [wPromo]⟩ : GameWithPromos) ∈ getUpcomingGames wStore :=
  (getUpcomingGames_spec wStore ⟨wGame, [wPromo]⟩).1.mpr (by decide)

end YardGoats
